import Mathlib

/-!
Verification of the core components of the efecte-mcp server against its
specification.  The TypeScript sources are shallowly embedded: each class is
a Lean structure, each method a pure function that threads the state and an
explicit clock (`Date.now()` becomes a `now : Nat` argument).  Times are
naturals (milliseconds).
-/

set_option maxRecDepth 4096

namespace EfecteMcp

/-! ## TTL cache — src/utils/cache.ts

`Cache<T>` is a `Map<string, CacheEntry<T>>`; we embed the map as an
association list with unique keys maintained by `set`/`delete`. -/

structure CacheEntry (T : Type) where
  value : T
  expiresAt : Nat
deriving Repr, DecidableEq

structure Cache (T : Type) where
  entries : List (String × CacheEntry T)
deriving Repr, DecidableEq

namespace Cache

/-- Embeds the underlying JS Map.get (no expiry logic). -/
def rawGet {T : Type} (c : Cache T) (key : String) : Option (CacheEntry T) :=
  c.entries.lookup key

/-- Embeds the JS Map.delete removal of a key from the entry list. -/
def eraseKey {T : Type} (c : Cache T) (key : String) : Cache T :=
  ⟨c.entries.filter (fun p => p.1 ≠ key)⟩

/-- Method set(key, value, ttlMs): stores the value with
expiresAt = Date.now() + ttlMs, replacing any previous entry. -/
def set {T : Type} (c : Cache T) (key : String) (value : T) (ttlMs : Nat)
    (now : Nat) : Cache T :=
  ⟨(key, ⟨value, now + ttlMs⟩) :: (c.eraseKey key).entries⟩

/-- Method get(key): returns the value if present and unexpired; an entry
whose expiry has strictly passed (Date.now() > entry.expiresAt) is deleted
and a miss (null) is returned.  Returns the result together with the
possibly shrunk cache. -/
def get {T : Type} (c : Cache T) (key : String) (now : Nat) :
    Option T × Cache T :=
  match c.rawGet key with
  | none => (none, c)
  | some entry =>
    if now > entry.expiresAt then (none, c.eraseKey key)
    else (some entry.value, c)

/-- Method delete(key): removes the entry if present, returns whether it existed. -/
def delete {T : Type} (c : Cache T) (key : String) : Bool × Cache T :=
  ((c.rawGet key).isSome, c.eraseKey key)

/-- Method size(): number of entries currently stored, expired or not. -/
def size {T : Type} (c : Cache T) : Nat :=
  c.entries.length

/-- Method cleanExpired(): removes every entry whose expiry has strictly passed. -/
def cleanExpired {T : Type} (c : Cache T) (now : Nat) : Cache T :=
  ⟨c.entries.filter (fun p => ¬ now > p.2.expiresAt)⟩

/-- Method clear(): removes all entries. -/
def clear {T : Type} (_c : Cache T) : Cache T := ⟨[]⟩

end Cache

/-! ## Reference diagnostic engine: similarity matching — src/utils (unnamed
part with findSimilarMatch / calculateSimilarity / levenshteinDistance)

Strings are compared after JS toLowerCase, embedded as mapping Char.toLower
over the characters (ASCII-faithful). -/

/-- Embeds JS String.prototype.toLowerCase. -/
def lowerCase (s : String) : String := String.mk (s.data.map Char.toLower)

/-- Embeds JS big.startsWith(small) on character lists. -/
def beginsWith : List Char → List Char → Bool
  | _, [] => true
  | [], _ :: _ => false
  | a :: as, b :: bs => a = b && beginsWith as bs

/-- Embeds JS big.includes(small) on character lists: small occurs as a
contiguous subsequence of big. -/
def containsSeq : List Char → List Char → Bool
  | [], small => beginsWith [] small
  | a :: t, small => beginsWith (a :: t) small || containsSeq t small

/-- One inner step of the Levenshtein dynamic program: given the character
c2 of str2 for the current row, the remaining characters of str1, the
remaining portion of the previous matrix row (headed by the diagonal cell),
and the cell to the left, produces the rest of the current row. -/
def levLoop (c2 : Char) : List Char → List Nat → Nat → List Nat
  | [], _, _ => []
  | c :: cs, pdiag :: pup :: prest, left =>
    let cur := if c = c2 then pdiag else Nat.min (Nat.min pdiag left) pup + 1
    cur :: levLoop c2 cs (pup :: prest) cur
  | _ :: _, _, _ => []

/-- Folds the Levenshtein rows over the characters of str2, starting from
row zero of the matrix. -/
def levAll (s1 : List Char) : List Char → List Nat → Nat → List Nat
  | [], row, _ => row
  | c2 :: rest, row, i => levAll s1 rest ((i + 1) :: levLoop c2 s1 row (i + 1)) (i + 1)

/-- Embeds levenshteinDistance(str1, str2): the row-by-row dynamic program of
the source, returning matrix[str2.length][str1.length]. -/
def levenshteinDistance (str1 str2 : List Char) : Nat :=
  (levAll str1 str2 (List.range (str1.length + 1)) 0).getLastD 0

/-- Embeds calculateSimilarity(str1, str2) = 1 - distance / maxLength, with
the JS floating-point number replaced by an exact rational. -/
def calculateSimilarity (str1 str2 : List Char) : ℚ :=
  let maxLength := Nat.max str1.length str2.length
  if maxLength = 0 then 1 else 1 - (levenshteinDistance str1 str2 : ℚ) / maxLength

/-- Predicate of the first stage of findSimilarMatch: exact case-insensitive
match of an option against the lowered target. -/
def exactPred (targetLower opt : String) : Bool := lowerCase opt == targetLower

/-- Predicate of the second stage of findSimilarMatch: substring containment
in either direction, case-insensitively. -/
def containPred (targetLower opt : String) : Bool :=
  containsSeq (lowerCase opt).data targetLower.data ||
    containsSeq targetLower.data (lowerCase opt).data

/-- Third stage of findSimilarMatch: score every option, take the head of the
stable descending sort (equivalently the earliest option of maximal
similarity), and return it when its similarity meets the threshold. -/
def bestStage (targetLower : String) (options : List String) (threshold : ℚ) :
    Option String :=
  match options.map (fun option =>
      (option, calculateSimilarity targetLower.data (lowerCase option).data)) with
  | [] => none
  | s :: rest =>
    let best := rest.foldl (fun b y => if b.2 < y.2 then y else b) s
    if threshold ≤ best.2 then some best.1 else none

/-- Embeds findSimilarMatch(target, options, threshold = 0.6): exact
case-insensitive match first, then substring containment in either
direction, then the highest-scoring option above the threshold. -/
def findSimilarMatch (target : String) (options : List String)
    (threshold : ℚ := 3 / 5) : Option String :=
  if options.isEmpty then none
  else
    let targetLower := lowerCase target
    match options.find? (exactPred targetLower) with
    | some exactMatch => some exactMatch
    | none =>
      match options.find? (containPred targetLower) with
      | some substringMatch => some substringMatch
      | none => bestStage targetLower options threshold

/-- Specification-side notion of substring containment: small occurs
contiguously inside big. -/
def containsAsSubstring (big small : List Char) : Prop :=
  ∃ s t, big = s ++ (small ++ t)

/-- Specification of the findSimilarMatch cascade as the claim states it:
an exact case-insensitive match if one exists, otherwise a candidate
containing or contained in the target (case-insensitively), otherwise a
candidate of maximal normalized similarity provided it reaches the 0.6
threshold, otherwise no suggestion. -/
def SimilarMatchSpec (target : String) (options : List String)
    (res : Option String) : Prop :=
  ((∃ o ∈ options, lowerCase o = lowerCase target) →
     ∃ r, res = some r ∧ r ∈ options ∧ lowerCase r = lowerCase target)
  ∧ ((∀ o ∈ options, lowerCase o ≠ lowerCase target) →
     (∃ o ∈ options,
        containsAsSubstring (lowerCase o).data (lowerCase target).data
        ∨ containsAsSubstring (lowerCase target).data (lowerCase o).data) →
     ∃ r, res = some r ∧ r ∈ options
       ∧ (containsAsSubstring (lowerCase r).data (lowerCase target).data
          ∨ containsAsSubstring (lowerCase target).data (lowerCase r).data))
  ∧ ((∀ o ∈ options, lowerCase o ≠ lowerCase target) →
     (∀ o ∈ options,
        ¬ (containsAsSubstring (lowerCase o).data (lowerCase target).data
           ∨ containsAsSubstring (lowerCase target).data (lowerCase o).data)) →
     ((∃ r, res = some r ∧ r ∈ options
         ∧ 3 / 5 ≤ calculateSimilarity (lowerCase target).data (lowerCase r).data
         ∧ ∀ o ∈ options,
             calculateSimilarity (lowerCase target).data (lowerCase o).data
               ≤ calculateSimilarity (lowerCase target).data (lowerCase r).data)
      ∨ (res = none
         ∧ ∀ o ∈ options,
             calculateSimilarity (lowerCase target).data (lowerCase o).data
               < 3 / 5)))

/-! ## Credential manager — src/api/auth.ts

AuthManager is embedded as a state record; Date.now() is an explicit now
argument and the network is an explicit AuthResponse argument.  Promises are
identified by numbers, and the single-threaded synchronous section of
getToken (everything up to returning or awaiting this.authPromise) is one
atomic step, getTokenStep. -/

structure AuthConfig where
  tokenRefreshThreshold : Nat
  authTokenTTL : Nat
deriving Repr, DecidableEq

structure AuthState where
  tokenCache : Cache String
  tokenExpiresAt : Nat
  authPromise : Option Nat
  nextPromiseId : Nat
  networkCalls : Nat
deriving Repr, DecidableEq

/-- Outcome of the synchronous section of getToken(): an immediate cached
return, joining the in-flight authentication promise, or starting (and then
awaiting) a fresh one. -/
inductive GetTokenStart where
  | cachedHit (token : String)
  | joined (pid : Nat)
  | started (pid : Nat)
deriving Repr, DecidableEq

/-- Promise a getToken() caller ends up awaiting (none for a cached hit;
both the starter and the joiners await this.authPromise). -/
def awaitedPromise : GetTokenStart → Option Nat
  | .cachedHit _ => none
  | .joined p => some p
  | .started p => some p

/-- The branch of getToken() taken when there is no usable cached token:
await an in-flight authentication if one exists, otherwise install a fresh
promise and issue the network call (authenticate()). -/
def startOrJoin (st : AuthState) : GetTokenStart × AuthState :=
  match st.authPromise with
  | some pid => (.joined pid, st)
  | none =>
    (.started st.nextPromiseId,
      { st with authPromise := some st.nextPromiseId,
                nextPromiseId := st.nextPromiseId + 1,
                networkCalls := st.networkCalls + 1 })

/-- Embeds the synchronous section of AuthManager.getToken(): return the
cached token when it exists and its tracked expiry exceeds
now + tokenRefreshThreshold * 1000, otherwise start or join an
authentication. -/
def getTokenStep (cfg : AuthConfig) (now : Nat) (st : AuthState) :
    GetTokenStart × AuthState :=
  let read := st.tokenCache.get "token" now
  let st1 : AuthState := { st with tokenCache := read.2 }
  match read.1 with
  | some t =>
    if st.tokenExpiresAt > now + cfg.tokenRefreshThreshold * 1000
    then (.cachedHit t, st1)
    else startOrJoin st1
  | none => startOrJoin st1

/-- Response of the authentication endpoint as observed by authenticate():
a success with an optional body token and an optional authorization header,
an Axios error carrying an HTTP status, or an Axios error without a
response (network failure). -/
inductive AuthResponse where
  | ok (bodyToken : Option String) (headerAuthorization : Option String)
  | axiosHttpError (status : Nat)
  | axiosNetworkError
deriving Repr, DecidableEq

/-- Failure surfaced by authenticate(): the distinguished invalid-credentials
error, the generic authentication-failed error, or a non-Axios error
rethrown unchanged with its message. -/
inductive AuthFailure where
  | invalidCredentials
  | authenticationFailed
  | thrown (msg : String)
deriving Repr, DecidableEq

/-- Embeds the Bearer normalization of authenticate(): token.startsWith
applied to the required Authorization scheme. -/
def normalizeBearer (token : String) : String :=
  if beginsWith token.data "Bearer ".data then token else "Bearer " ++ token

/-- Embeds AuthManager.authenticate() for a given response: extract the
token from the body or the authorization header, normalize it, store it in
the cache with the configured TTL and record the derived expiry; on an
Axios 401 surface invalid credentials, on any other Axios error surface the
generic authentication failure, and rethrow anything else unchanged. -/
def authenticate (cfg : AuthConfig) (now : Nat) (resp : AuthResponse)
    (st : AuthState) : Except AuthFailure String × AuthState :=
  match resp with
  | .ok body header =>
    match body.orElse (fun _ => header) with
    | none => (.error (.thrown "No token received from authentication endpoint"), st)
    | some token =>
      let bearerToken := normalizeBearer token
      (.ok bearerToken,
        { st with
            tokenCache := st.tokenCache.set "token" bearerToken cfg.authTokenTTL now,
            tokenExpiresAt := now + cfg.authTokenTTL })
  | .axiosHttpError status =>
    if status = 401 then (.error .invalidCredentials, st)
    else (.error .authenticationFailed, st)
  | .axiosNetworkError => (.error .authenticationFailed, st)

/-- Completion of the authentication promise: the authenticate() result
followed by the finally handler of getToken(), which clears
this.authPromise on success and on failure alike. -/
def completeAuth (cfg : AuthConfig) (now : Nat) (resp : AuthResponse)
    (st : AuthState) : Except AuthFailure String × AuthState :=
  let r := authenticate cfg now resp st
  (r.1, { r.2 with authPromise := none })

/-- Embeds AuthManager.clearToken(): evict the cached token, reset the
tracked expiry to zero and drop any in-flight marker. -/
def clearToken (st : AuthState) : AuthState :=
  { st with
      tokenCache := (st.tokenCache.delete "token").2,
      tokenExpiresAt := 0,
      authPromise := none }

/-- Awaited getToken(): the synchronous section followed by resolution of
the awaited promise.  A fresh acquisition resolves through completeAuth with
the given response; joining an already in-flight acquisition resolves with
the provided resolution of that promise, whose own finally clears the
marker. -/
def getTokenAwait (cfg : AuthConfig) (now : Nat)
    (resolvePending : Nat → Except AuthFailure String) (resp : AuthResponse)
    (st : AuthState) : Except AuthFailure String × AuthState :=
  match getTokenStep cfg now st with
  | (.cachedHit t, st1) => (.ok t, st1)
  | (.joined p, st1) => (resolvePending p, { st1 with authPromise := none })
  | (.started _, st1) => completeAuth cfg now resp st1

/-- Sequential interleaving of several getToken() callers: each caller runs
its atomic synchronous section in arrival order, with no completion event
in between (all callers start before any authentication completes). -/
def runCallers (cfg : AuthConfig) (arrivalTimes : List Nat) (st : AuthState) :
    List GetTokenStart × AuthState :=
  match arrivalTimes with
  | [] => ([], st)
  | t :: ts =>
    let r := getTokenStep cfg t st
    let rest := runCallers cfg ts r.2
    (r.1 :: rest.1, rest.2)

/-! ## Session registry — src/server-http.ts

The transports map is embedded as an association list from session id to
TransportInfo.  The idle sweep emits events; a close-started event records
the registry state at the instant close() is invoked, so the
removal-before-close ordering is directly observable. -/

structure TransportInfo where
  lastActivity : Nat
deriving Repr, DecidableEq

/-- Embeds Map.get on the transports registry. -/
def lookupSession (reg : List (String × TransportInfo)) (sid : String) :
    Option TransportInfo :=
  reg.lookup sid

/-- Embeds Map.delete on the transports registry. -/
def removeSession (reg : List (String × TransportInfo)) (sid : String) :
    List (String × TransportInfo) :=
  reg.filter (fun p => p.1 ≠ sid)

/-- Event of the idle sweep: a registry removal, or the start of an
asynchronous close recorded together with the registry contents at that
instant. -/
inductive SweepEvent where
  | removed (sid : String)
  | closeStarted (sid : String) (registryAtStart : List (String × TransportInfo))
deriving Repr, DecidableEq

/-- Body of the second loop of cleanupIdleSessions for one collected session
id: re-read the map, and when still present remove the session first and
only then initiate the asynchronous close. -/
def reclaimSession (st : List (String × TransportInfo) × List SweepEvent)
    (sid : String) : List (String × TransportInfo) × List SweepEvent :=
  match lookupSession st.1 sid with
  | some _ =>
    let reg1 := removeSession st.1 sid
    (reg1, st.2 ++ [.removed sid, .closeStarted sid reg1])
  | none => st

/-- Embeds EfecteHttpServer.cleanupIdleSessions: collect every session whose
idle time strictly exceeds the session timeout, then remove and close each
of them. -/
def cleanupIdleSessions (sessionTimeout now : Nat)
    (reg : List (String × TransportInfo)) :
    List (String × TransportInfo) × List SweepEvent :=
  let sessionsToClose :=
    (reg.filter (fun p => now - p.2.lastActivity > sessionTimeout)).map (fun p => p.1)
  sessionsToClose.foldl reclaimSession (reg, [])

/-- Embeds the DELETE /mcp route handler: 400 without a session id header,
404 for an unknown session, and for a known session close the server,
remove it from the registry and answer 204.  Returns the HTTP status, the
resulting registry and the list of sessions whose close was performed. -/
def handleDeleteMcp (sessionIdHeader : Option String)
    (reg : List (String × TransportInfo)) :
    Nat × List (String × TransportInfo) × List String :=
  match sessionIdHeader with
  | none => (400, reg, [])
  | some sid =>
    match lookupSession reg sid with
    | some _ => (204, removeSession reg sid, [sid])
    | none => (404, reg, [])

/-! ## API client 401 retry — src/api (unnamed part with
EfecteApiClient.setupInterceptors)

The response interceptor is embedded as a function of the scripted outcomes
of successive sends; the Axios retry config carries the X-Retry marker and
the Authorization header. -/

structure RequestConfig where
  url : String
  hasRetryHeader : Bool
  authToken : Option String
deriving Repr, DecidableEq

/-- Outcome of one send of a request: a success with data, or an Axios
error with the optional HTTP status of its response. -/
inductive HttpOutcome (α : Type) where
  | success (data : α)
  | failure (status : Option Nat)
deriving Repr, DecidableEq

/-- Decision of the response-error interceptor: re-issue a retry request,
reject with the original error, or reject with an authentication failure
raised while obtaining the fresh token. -/
inductive RetryDecision where
  | retry (cf : RequestConfig)
  | reject (status : Option Nat)
  | rejectAuth (f : AuthFailure)
deriving Repr, DecidableEq

/-- Result of a request as seen by the caller of the API client. -/
inductive RequestResult (α : Type) where
  | ok (data : α)
  | error (status : Option Nat)
  | authError (f : AuthFailure)
  | noResponse
deriving Repr, DecidableEq

/-- Embeds the response-error interceptor branch for errors with a
response: on a 401 outside the login endpoint, clear the token; if the
request has not been retried yet, obtain a fresh token and retry the
request once with the X-Retry marker and the new Authorization header;
otherwise reject. -/
def on401 (cfg : AuthConfig) (now : Nat)
    (resolvePending : Nat → Except AuthFailure String) (authResp : AuthResponse)
    (cf : RequestConfig) (status : Option Nat) (st : AuthState) :
    RetryDecision × AuthState :=
  match status with
  | some s =>
    if s = 401 ∧ ¬ containsSeq cf.url.data "/users/login".data then
      let st1 := clearToken st
      if cf.hasRetryHeader then (.reject status, st1)
      else
        match getTokenAwait cfg now resolvePending authResp st1 with
        | (.ok tok, st2) =>
          (.retry { cf with hasRetryHeader := true, authToken := some tok }, st2)
        | (.error f, st2) => (.rejectAuth f, st2)
    else (.reject status, st)
  | none => (.reject status, st)

/-- Request loop of the API client: each send consumes the next scripted
outcome; a failure goes through the interceptor, which may cause one
retry.  Returns the result, the number of sends performed, and the auth
state. -/
def sendLoop (cfg : AuthConfig) (now : Nat)
    (resolvePending : Nat → Except AuthFailure String) (authResp : AuthResponse) :
    List (HttpOutcome α) → RequestConfig → AuthState →
    RequestResult α × Nat × AuthState
  | [], _, st => (.noResponse, 0, st)
  | o :: rest, cf, st =>
    match o with
    | .success d => (.ok d, 1, st)
    | .failure status =>
      match on401 cfg now resolvePending authResp cf status st with
      | (.retry cf2, st1) =>
        let r := sendLoop cfg now resolvePending authResp rest cf2 st1
        (r.1, r.2.1 + 1, r.2.2)
      | (.reject s, st1) => (.error s, 1, st1)
      | (.rejectAuth f, st1) => (.authError f, 1, st1)

/-! ## Helper lemmas -/

theorem lookup_filter_ne_none {β : Type} (k : String)
    (l : List (String × β)) :
    (l.filter (fun p => p.1 ≠ k)).lookup k = none := by
  induction l with
  | nil => rfl
  | cons p t ih =>
    rcases p with ⟨a, b⟩
    by_cases hak : a = k
    · simpa [List.filter_cons, hak] using ih
    · have hba : (k == a) = false := by
        simp [Ne.symm hak]
      simp only [List.filter_cons, ne_eq, hak, not_false_eq_true, decide_True,
        if_true]
      simpa [List.lookup, hba] using ih

theorem lookup_eraseKey_self {T : Type} (c : Cache T) (k : String) :
    (c.eraseKey k).rawGet k = none :=
  lookup_filter_ne_none k c.entries

theorem eraseKey_size_lt {T : Type} (c : Cache T) (k : String)
    (e : CacheEntry T) (h : c.rawGet k = some e) :
    (c.eraseKey k).size < c.size := by
  rcases c with ⟨entries⟩
  induction entries with
  | nil => simp [Cache.rawGet, List.lookup] at h
  | cons p t ih =>
    rcases p with ⟨a, b⟩
    by_cases hak : a = k
    · simp only [Cache.eraseKey, Cache.size, List.filter_cons, ne_eq, hak,
        not_true_eq_false, decide_False, if_false, List.length_cons]
      exact Nat.lt_succ_of_le (List.length_filter_le _ t)
    · have hba : (k == a) = false := by
        simp [Ne.symm hak]
      have h' : Cache.rawGet ⟨t⟩ k = some e := by
        simpa [Cache.rawGet, List.lookup, hba] using h
      have ht := ih h'
      simp only [Cache.eraseKey, Cache.size, List.filter_cons, List.length_cons,
        ne_eq, hak, not_false_eq_true, decide_True, if_true] at ht ⊢
      omega

theorem rawGet_set_self {T : Type} (c : Cache T) (k : String) (v : T)
    (ttl now : Nat) : (c.set k v ttl now).rawGet k = some ⟨v, now + ttl⟩ := by
  simp [Cache.set, Cache.rawGet, List.lookup]

/-! ## Claim C1 — cache reads against the TTL boundary -/

/-- Claim C1, counterexample: at the very instant now = expiresAt the code
still returns the value (get tests strictly Date.now() > expiresAt), while
the claim demands a miss for every now ≥ expiresAt.  Here set at time 0
with ttl 5 gives expiresAt = 5, and a read at now = 5 hits. -/
theorem cache_get_at_expiry_cex :
    (((Cache.mk [] : Cache Nat).set "k" 7 5 0).rawGet "k")
        = some ⟨7, 5⟩
    ∧ ((((Cache.mk [] : Cache Nat).set "k" 7 5 0).get "k" 5).1 = some 7)
    ∧ 5 ≥ 5 := by
  decide

/-- Claim C1, amended: after set(k, v, ttl) at time tset, expiresAt is
tset + ttl; get(k) returns v at every instant now ≤ expiresAt and a miss at
every instant now > expiresAt (rather than now ≥ expiresAt); and in general
a read never returns a value whose expiresAt has strictly passed. -/
theorem cache_ttl_read :
    (∀ (T : Type) (c : Cache T) (k : String) (v : T) (ttl tset now : Nat),
      (now ≤ tset + ttl → ((c.set k v ttl tset).get k now).1 = some v)
      ∧ (tset + ttl < now → ((c.set k v ttl tset).get k now).1 = none))
    ∧ (∀ (T : Type) (c : Cache T) (k : String) (now : Nat) (v : T),
        (c.get k now).1 = some v →
        ∃ e, c.rawGet k = some e ∧ v = e.value ∧ now ≤ e.expiresAt) := by
  constructor
  · intro T c k v ttl tset now
    constructor
    · intro h
      simp [Cache.get, rawGet_set_self, Nat.not_lt.mpr h]
    · intro h
      simp [Cache.get, rawGet_set_self, h]
  · intro T c k now v h
    rcases he : c.rawGet k with _ | e
    · rw [Cache.get, he] at h
      simp at h
    · have hval : c.get k now =
          if now > e.expiresAt then (none, c.eraseKey k) else (some e.value, c) := by
        simp [Cache.get, he]
      rw [hval] at h
      by_cases hn : now > e.expiresAt
      · rw [if_pos hn] at h; simp at h
      · rw [if_neg hn] at h
        simp only [Option.some.injEq] at h
        exact ⟨e, rfl, h.symm, Nat.not_lt.mp hn⟩

/-- Witness for cache_ttl_read at concrete inputs: a read at now = 3 of an
entry set at 0 with ttl 5 hits, a read at now = 6 misses. -/
theorem cache_ttl_read_witness :
    ((((Cache.mk [] : Cache Nat).set "k" 7 5 0).get "k" 3).1 = some 7)
    ∧ ((((Cache.mk [] : Cache Nat).set "k" 7 5 0).get "k" 6).1 = none) :=
  ⟨(cache_ttl_read.1 Nat (Cache.mk []) "k" 7 5 0 3).1 (by decide),
   (cache_ttl_read.1 Nat (Cache.mk []) "k" 7 5 0 6).2 (by decide)⟩

/-! ## Claim C10 — expired-but-unswept entries: delete and size versus get -/

/-- Claim C10: for an entry whose expiresAt has passed but which has not
yet been removed, delete(k) still returns true, size() still counts it
(the lazy removal performed by get shrinks the cache), while get(k) at the
same instant returns a miss. -/
theorem cache_expired_divergence :
    ∀ (T : Type) (c : Cache T) (k : String) (e : CacheEntry T) (now : Nat),
      c.rawGet k = some e → e.expiresAt < now →
      (c.delete k).1 = true
      ∧ (c.get k now).1 = none
      ∧ 1 ≤ c.size
      ∧ ((c.get k now).2).size < c.size := by
  intro T c k e now he hn
  have hget : c.get k now = (none, c.eraseKey k) := by
    simp [Cache.get, he, hn]
  refine ⟨by simp [Cache.delete, he], by rw [hget], ?_, ?_⟩
  · have := eraseKey_size_lt c k e he
    omega
  · rw [hget]
    exact eraseKey_size_lt c k e he

/-- Witness for cache_expired_divergence: an entry set at time 0 with
ttl 5, inspected at now = 6. -/
theorem cache_expired_divergence_witness :
    ((((Cache.mk [] : Cache Nat).set "k" 7 5 0).delete "k").1 = true)
    ∧ (((((Cache.mk [] : Cache Nat).set "k" 7 5 0)).get "k" 6).1 = none)
    ∧ 1 ≤ ((Cache.mk [] : Cache Nat).set "k" 7 5 0).size
    ∧ (((((Cache.mk [] : Cache Nat).set "k" 7 5 0)).get "k" 6).2).size
        < ((Cache.mk [] : Cache Nat).set "k" 7 5 0).size :=
  cache_expired_divergence Nat ((Cache.mk [] : Cache Nat).set "k" 7 5 0) "k"
    ⟨7, 5⟩ 6 (by decide) (by decide)

theorem cache_get_none {T : Type} (c : Cache T) (k : String) (now : Nat)
    (h : c.rawGet k = none) : c.get k now = (none, c) := by
  rw [Cache.get, h]

theorem startOrJoin_none {st : AuthState} (h : st.authPromise = none) :
    startOrJoin st =
      (.started st.nextPromiseId,
        { st with authPromise := some st.nextPromiseId,
                  nextPromiseId := st.nextPromiseId + 1,
                  networkCalls := st.networkCalls + 1 }) := by
  rw [startOrJoin, h]

theorem startOrJoin_some {st : AuthState} {p : Nat}
    (h : st.authPromise = some p) : startOrJoin st = (.joined p, st) := by
  rw [startOrJoin, h]

theorem startOrJoin_not_cachedHit (st : AuthState) (t : String) :
    (startOrJoin st).1 ≠ .cachedHit t := by
  rw [startOrJoin]
  rcases st.authPromise with _ | p <;> simp

theorem getTokenStep_eq (cfg : AuthConfig) (now : Nat) (st : AuthState) :
    getTokenStep cfg now st =
      match (st.tokenCache.get "token" now).1 with
      | some t =>
        if now + cfg.tokenRefreshThreshold * 1000 < st.tokenExpiresAt
        then (.cachedHit t, { st with tokenCache := (st.tokenCache.get "token" now).2 })
        else startOrJoin { st with tokenCache := (st.tokenCache.get "token" now).2 }
      | none => startOrJoin { st with tokenCache := (st.tokenCache.get "token" now).2 } :=
  rfl

/-! ## Claim C5 — getToken cached fast path and fresh acquisition -/

/-- Claim C5: getToken returns the cached token immediately with no network
call exactly when a cached token exists and the tracked expiry exceeds
now + refresh threshold; what it returns then is the cached token; with no
acquisition in flight and no valid cached token it starts a fresh exchange
(one more network call, the promise installed); and a successful exchange
returns the Bearer-normalized token, stores it under the token key with the
configured TTL and records the derived expiry. -/
theorem getToken_spec :
    ∀ (cfg : AuthConfig) (now : Nat) (st : AuthState),
      (((∃ t, (getTokenStep cfg now st).1 = .cachedHit t)
          ∧ ((getTokenStep cfg now st).2).networkCalls = st.networkCalls)
        ↔ (∃ t, (st.tokenCache.get "token" now).1 = some t
            ∧ now + cfg.tokenRefreshThreshold * 1000 < st.tokenExpiresAt))
      ∧ (∀ t, (getTokenStep cfg now st).1 = .cachedHit t →
          (st.tokenCache.get "token" now).1 = some t)
      ∧ (st.authPromise = none →
          ¬ (∃ t, (st.tokenCache.get "token" now).1 = some t
              ∧ now + cfg.tokenRefreshThreshold * 1000 < st.tokenExpiresAt) →
          (getTokenStep cfg now st).1 = .started st.nextPromiseId
          ∧ ((getTokenStep cfg now st).2).networkCalls = st.networkCalls + 1
          ∧ ((getTokenStep cfg now st).2).authPromise = some st.nextPromiseId)
      ∧ (∀ (now2 : Nat) (st2 : AuthState) (body header : Option String)
            (token : String),
          body.orElse (fun _ => header) = some token →
          (completeAuth cfg now2 (.ok body header) st2).1
              = .ok (normalizeBearer token)
          ∧ ((completeAuth cfg now2 (.ok body header) st2).2).tokenCache.rawGet
              "token" = some ⟨normalizeBearer token, now2 + cfg.authTokenTTL⟩
          ∧ ((completeAuth cfg now2 (.ok body header) st2).2).tokenExpiresAt
              = now2 + cfg.authTokenTTL) := by
  intro cfg now st
  refine ⟨⟨?_, ?_⟩, ?_, ?_, ?_⟩
  · rintro ⟨⟨t, ht⟩, -⟩
    rw [getTokenStep_eq] at ht
    rcases hr : (st.tokenCache.get "token" now).1 with _ | u
    · simp only [hr] at ht
      exact absurd ht (startOrJoin_not_cachedHit _ t)
    · simp only [hr] at ht
      by_cases hc : now + cfg.tokenRefreshThreshold * 1000 < st.tokenExpiresAt
      · exact ⟨u, rfl, hc⟩
      · rw [if_neg hc] at ht
        exact absurd ht (startOrJoin_not_cachedHit _ t)
  · rintro ⟨t, hr, hc⟩
    refine ⟨⟨t, ?_⟩, ?_⟩ <;>
      · rw [getTokenStep_eq]
        simp only [hr]
        rw [if_pos hc]
  · intro t ht
    rw [getTokenStep_eq] at ht
    rcases hr : (st.tokenCache.get "token" now).1 with _ | u
    · simp only [hr] at ht
      exact absurd ht (startOrJoin_not_cachedHit _ t)
    · simp only [hr] at ht
      by_cases hc : now + cfg.tokenRefreshThreshold * 1000 < st.tokenExpiresAt
      · rw [if_pos hc] at ht
        simp only [GetTokenStart.cachedHit.injEq] at ht
        rw [ht]
      · rw [if_neg hc] at ht
        exact absurd ht (startOrJoin_not_cachedHit _ t)
  · intro hp hno
    have hpe : ({ st with tokenCache := (st.tokenCache.get "token" now).2 }
        : AuthState).authPromise = none := hp
    rcases hr : (st.tokenCache.get "token" now).1 with _ | u
    · rw [getTokenStep_eq]
      simp only [hr]
      rw [startOrJoin_none hpe]
      refine ⟨?a1, ?a2, ?a3⟩
      case a1 => rfl
      case a2 => rfl
      case a3 => rfl
    · have hc : ¬ now + cfg.tokenRefreshThreshold * 1000 < st.tokenExpiresAt :=
        fun hgt => hno ⟨u, hr, hgt⟩
      rw [getTokenStep_eq]
      simp only [hr]
      rw [if_neg hc, startOrJoin_none hpe]
      refine ⟨?b1, ?b2, ?b3⟩
      case b1 => rfl
      case b2 => rfl
      case b3 => rfl
  · intro now2 st2 body header token htok
    simp [completeAuth, authenticate, htok, rawGet_set_self]

/-- Witness for getToken_spec: a state holding a valid cached token hits
the cache; the empty initial state starts a fresh call; a successful
exchange with a body token stores and returns the normalized token. -/
theorem getToken_spec_witness :
    (getTokenStep ⟨1, 1000⟩ 0
        ⟨⟨[("token", ⟨"Bearer x", 5000⟩)]⟩, 5000, none, 0, 0⟩).1
          = GetTokenStart.cachedHit "Bearer x"
    ∧ (getTokenStep ⟨1, 1000⟩ 0 ⟨⟨[]⟩, 0, none, 0, 0⟩).1 = .started 0
    ∧ (completeAuth ⟨1, 1000⟩ 0 (.ok (some "x") none)
        ⟨⟨[]⟩, 0, some 0, 1, 1⟩).1 = .ok "Bearer x" := by
  refine ⟨?_, ?_, ?_⟩
  · rcases ((getToken_spec ⟨1, 1000⟩ 0
        ⟨⟨[("token", ⟨"Bearer x", 5000⟩)]⟩, 5000, none, 0, 0⟩).1.mpr
        ⟨"Bearer x", by decide, by decide⟩).1 with ⟨t, ht⟩
    have hcg := (getToken_spec ⟨1, 1000⟩ 0
        ⟨⟨[("token", ⟨"Bearer x", 5000⟩)]⟩, 5000, none, 0, 0⟩).2.1 t ht
    have hval : (((⟨⟨[("token", ⟨"Bearer x", 5000⟩)]⟩, 5000, none, 0, 0⟩
        : AuthState)).tokenCache.get "token" 0).1 = some "Bearer x" := by decide
    rw [hcg] at hval
    injection hval with h'
    rw [h'] at ht
    exact ht
  · exact ((getToken_spec ⟨1, 1000⟩ 0 ⟨⟨[]⟩, 0, none, 0, 0⟩).2.2.1 rfl
      (by rintro ⟨t, -, hlt⟩; exact absurd hlt (by decide))).1
  · have h3 := ((getToken_spec ⟨1, 1000⟩ 0 ⟨⟨[]⟩, 0, some 0, 1, 1⟩).2.2.2 0
      ⟨⟨[]⟩, 0, some 0, 1, 1⟩ (some "x") none "x" rfl).1
    have hn : normalizeBearer "x" = "Bearer x" := by decide
    rw [hn] at h3
    exact h3

/-! ## Claim C6 — clearToken forces a fresh authentication -/

/-- Claim C6: clearToken evicts the cached token, resets the tracked expiry
to an already-expired value (zero) and cancels the in-flight marker; the
next getToken therefore always starts a fresh authentication network call,
for any state and any instant, even if the previous token was still
valid. -/
theorem clearToken_forces_fresh :
    ∀ (cfg : AuthConfig) (now : Nat) (st : AuthState),
      ((clearToken st).tokenCache.rawGet "token") = none
      ∧ (clearToken st).tokenExpiresAt = 0
      ∧ (clearToken st).authPromise = none
      ∧ (getTokenStep cfg now (clearToken st)).1 = .started st.nextPromiseId
      ∧ ((getTokenStep cfg now (clearToken st)).2).networkCalls
          = st.networkCalls + 1 := by
  intro cfg now st
  have hraw : ((clearToken st).tokenCache.rawGet "token") = none :=
    lookup_eraseKey_self st.tokenCache "token"
  have hget : ((clearToken st).tokenCache.get "token" now).1 = none := by
    rw [cache_get_none _ _ now hraw]
  have hres := (getToken_spec cfg now (clearToken st)).2.2.1 rfl
    (by rintro ⟨t, ht, -⟩; rw [hget] at ht; exact Option.noConfusion ht)
  exact ⟨hraw, rfl, rfl, hres.1, hres.2.1⟩

/-! ## Claim C7 — failure classification of the token acquisition -/

/-- Claim C7, counterexample: an authentication response that carries no
token in body or header raises an internal error which the catch block
rethrows unchanged (it is not an Axios error), so the surfaced failure is
neither the invalid-credentials nor the generic authentication-failed
condition, contradicting the claim that every non-401 failure surfaces the
generic condition. -/
theorem auth_failure_nonaxios_cex :
    (completeAuth ⟨0, 0⟩ 0 (.ok none none) ⟨⟨[]⟩, 0, some 0, 1, 1⟩).1
        = .error (.thrown "No token received from authentication endpoint")
    ∧ (completeAuth ⟨0, 0⟩ 0 (.ok none none) ⟨⟨[]⟩, 0, some 0, 1, 1⟩).1
        ≠ .error .authenticationFailed
    ∧ (completeAuth ⟨0, 0⟩ 0 (.ok none none) ⟨⟨[]⟩, 0, some 0, 1, 1⟩).1
        ≠ .error .invalidCredentials := by
  refine ⟨rfl, ?_, ?_⟩ <;> simp [completeAuth, authenticate]

/-- Claim C7, amended: a 401-equivalent Axios response surfaces the
distinguished invalid-credentials condition; any other Axios failure (other
HTTP status, or a network error without a response) surfaces the generic
authentication-failed condition; an internally raised error such as a
missing token propagates unchanged; and in every case the in-flight marker
is cleared, so a later getToken with no cached token starts a fresh
acquisition. -/
theorem auth_failure_classification :
    ∀ (cfg : AuthConfig) (now : Nat) (st : AuthState) (status : Nat)
      (resp : AuthResponse),
      (status = 401 →
        (completeAuth cfg now (.axiosHttpError status) st).1
          = .error .invalidCredentials)
      ∧ (status ≠ 401 →
        (completeAuth cfg now (.axiosHttpError status) st).1
          = .error .authenticationFailed)
      ∧ (completeAuth cfg now .axiosNetworkError st).1
          = .error .authenticationFailed
      ∧ (completeAuth cfg now (.ok none none) st).1
          = .error (.thrown "No token received from authentication endpoint")
      ∧ ((completeAuth cfg now resp st).2).authPromise = none
      ∧ (st.tokenCache.rawGet "token" = none →
          (getTokenStep cfg now
              ((completeAuth cfg now (.axiosHttpError status) st).2)).1
            = .started st.nextPromiseId) := by
  intro cfg now st status resp
  refine ⟨?_, ?_, ?_, ?_, ?_, ?_⟩
  · intro h
    simp [completeAuth, authenticate, h]
  · intro h
    simp [completeAuth, authenticate, h]
  · rfl
  · rfl
  · rcases resp with ⟨body, header⟩ | status2 | _
    · rcases hb : body.orElse (fun _ => header) with _ | tok <;>
        simp [completeAuth, authenticate, hb]
    · by_cases h : status2 = 401 <;> simp [completeAuth, authenticate, h]
    · rfl
  · intro hraw
    have hst2 : (completeAuth cfg now (.axiosHttpError status) st).2
        = { st with authPromise := none } := by
      by_cases h : status = 401 <;> simp [completeAuth, authenticate, h]
    rw [hst2]
    have hget : (({ st with authPromise := none }
        : AuthState).tokenCache.get "token" now).1 = none := by
      rw [cache_get_none _ _ now
        (show ({ st with authPromise := none }
          : AuthState).tokenCache.rawGet "token" = none from hraw)]
    exact ((getToken_spec cfg now { st with authPromise := none }).2.2.1 rfl
      (by rintro ⟨t, ht, -⟩; rw [hget] at ht; exact Option.noConfusion ht)).1

/-- Witness for auth_failure_classification at concrete inputs: a 401
response surfaces invalid credentials, a 500 response the generic failure,
and after the failure the marker is clear and a new acquisition starts. -/
theorem auth_failure_classification_witness :
    (completeAuth ⟨0, 0⟩ 0 (.axiosHttpError 401) ⟨⟨[]⟩, 0, some 0, 1, 1⟩).1
        = .error .invalidCredentials
    ∧ (completeAuth ⟨0, 0⟩ 0 (.axiosHttpError 500) ⟨⟨[]⟩, 0, some 0, 1, 1⟩).1
        = .error .authenticationFailed
    ∧ (getTokenStep ⟨0, 0⟩ 0
        (completeAuth ⟨0, 0⟩ 0 (.axiosHttpError 500)
          ⟨⟨[]⟩, 0, some 0, 1, 1⟩).2).1 = .started 1 :=
  ⟨(auth_failure_classification ⟨0, 0⟩ 0 ⟨⟨[]⟩, 0, some 0, 1, 1⟩ 401
      .axiosNetworkError).1 rfl,
   (auth_failure_classification ⟨0, 0⟩ 0 ⟨⟨[]⟩, 0, some 0, 1, 1⟩ 500
      .axiosNetworkError).2.1 (by decide),
   (auth_failure_classification ⟨0, 0⟩ 0 ⟨⟨[]⟩, 0, some 0, 1, 1⟩ 500
      .axiosNetworkError).2.2.2.2.2 rfl⟩

/-! ## Claim C2 — single-flight of concurrent getToken callers -/

theorem runCallers_joined :
    ∀ (cfg : AuthConfig) (times : List Nat) (st : AuthState) (p : Nat),
      st.tokenCache.rawGet "token" = none → st.authPromise = some p →
      (runCallers cfg times st).2 = st
      ∧ ∀ r ∈ (runCallers cfg times st).1, r = .joined p := by
  intro cfg times
  induction times with
  | nil => intro st p _ _; exact ⟨rfl, by simp [runCallers]⟩
  | cons t ts ih =>
    intro st p hraw hp
    have hget : st.tokenCache.get "token" t = (none, st.tokenCache) :=
      cache_get_none _ _ t hraw
    have hstep : getTokenStep cfg t st = (.joined p, st) := by
      rw [getTokenStep_eq, hget]
      show startOrJoin { st with tokenCache := st.tokenCache } = _
      have heta : ({ st with tokenCache := st.tokenCache } : AuthState) = st := rfl
      rw [heta, startOrJoin_some hp]
    have hrec := ih st p hraw hp
    constructor
    · show (runCallers cfg (t :: ts) st).2 = st
      rw [runCallers, hstep]
      exact hrec.1
    · intro r hr
      rw [runCallers, hstep] at hr
      rcases List.mem_cons.mp hr with h | h
      · exact h
      · exact hrec.2 r h

/-- Claim C2: with no cached token and no acquisition in flight, any
non-empty batch of getToken callers that all start before the
authentication completes issues exactly one network call, and every caller
awaits the same promise, hence observes the same resolved token or the
same failure. -/
theorem single_flight :
    ∀ (cfg : AuthConfig) (times : List Nat) (st : AuthState),
      st.tokenCache.rawGet "token" = none → st.authPromise = none →
      times ≠ [] →
      ((runCallers cfg times st).2).networkCalls = st.networkCalls + 1
      ∧ (∀ r ∈ (runCallers cfg times st).1,
          awaitedPromise r = some st.nextPromiseId)
      ∧ (∀ (resolve : Nat → Except AuthFailure String) r1 r2,
          r1 ∈ (runCallers cfg times st).1 → r2 ∈ (runCallers cfg times st).1 →
          Option.map resolve (awaitedPromise r1)
            = Option.map resolve (awaitedPromise r2)) := by
  intro cfg times st hraw hp hne
  rcases times with _ | ⟨t, ts⟩
  · exact absurd rfl hne
  have hget : st.tokenCache.get "token" t = (none, st.tokenCache) :=
    cache_get_none _ _ t hraw
  have hstep : getTokenStep cfg t st =
      (.started st.nextPromiseId,
        { st with authPromise := some st.nextPromiseId,
                  nextPromiseId := st.nextPromiseId + 1,
                  networkCalls := st.networkCalls + 1 }) := by
    rw [getTokenStep_eq, hget]
    show startOrJoin { st with tokenCache := st.tokenCache } = _
    have heta : ({ st with tokenCache := st.tokenCache } : AuthState) = st := rfl
    rw [heta, startOrJoin_none hp]
  have hrec := runCallers_joined cfg ts
    { st with authPromise := some st.nextPromiseId,
              nextPromiseId := st.nextPromiseId + 1,
              networkCalls := st.networkCalls + 1 }
    st.nextPromiseId hraw rfl
  have hall : ∀ r ∈ (runCallers cfg (t :: ts) st).1,
      awaitedPromise r = some st.nextPromiseId := by
    intro r hr
    rw [runCallers, hstep] at hr
    rcases List.mem_cons.mp hr with h | h
    · rw [h]; rfl
    · rw [hrec.2 r h]; rfl
  refine ⟨?_, hall, ?_⟩
  · show ((runCallers cfg (t :: ts) st).2).networkCalls = st.networkCalls + 1
    rw [runCallers, hstep]
    show ((runCallers cfg ts _).2).networkCalls = st.networkCalls + 1
    rw [hrec.1]
  · intro resolve r1 r2 h1 h2
    rw [hall r1 h1, hall r2 h2]

/-- Witness for single_flight: three callers starting at instants 0, 1, 2
against the empty initial state produce exactly one network call. -/
theorem single_flight_witness :
    ((runCallers ⟨1, 1000⟩ [0, 1, 2] ⟨⟨[]⟩, 0, none, 0, 0⟩).2).networkCalls
      = 0 + 1 :=
  (single_flight ⟨1, 1000⟩ [0, 1, 2] ⟨⟨[]⟩, 0, none, 0, 0⟩ rfl rfl
    (by decide)).1

/-! ## Session registry lemmas -/

theorem lookup_removeSession_self (reg : List (String × TransportInfo))
    (sid : String) : lookupSession (removeSession reg sid) sid = none :=
  lookup_filter_ne_none sid reg

theorem mem_of_lookup {β : Type} {reg : List (String × β)} {sid : String}
    {b : β} (h : reg.lookup sid = some b) : (sid, b) ∈ reg := by
  induction reg with
  | nil => exact Option.noConfusion h
  | cons p t ih =>
    rcases p with ⟨a, v⟩
    by_cases hak : sid = a
    · have hba : (sid == a) = true := by simp [hak]
      rw [List.lookup, hba] at h
      simp only [Option.some.injEq] at h
      rw [hak, h]
      exact List.mem_cons_self _ _
    · have hba : (sid == a) = false := by simp [hak]
      rw [List.lookup, hba] at h
      exact List.mem_cons_of_mem _ (ih h)

theorem lookup_cons_ne {β : Type} {s a : String} (v : β)
    (t : List (String × β)) (h : (s == a) = false) :
    List.lookup s ((a, v) :: t) = List.lookup s t := by
  rw [List.lookup, h]

theorem lookup_cons_eq {β : Type} {s a : String} (v : β)
    (t : List (String × β)) (h : (s == a) = true) :
    List.lookup s ((a, v) :: t) = some v := by
  rw [List.lookup, h]

theorem lookup_filter_ne_other {β : Type} {k s : String} (h : s ≠ k) :
    ∀ (l : List (String × β)),
      (l.filter (fun p => p.1 ≠ k)).lookup s = l.lookup s := by
  intro l
  induction l with
  | nil => rfl
  | cons p t ih =>
    rcases p with ⟨a, v⟩
    simp only [List.filter_cons]
    by_cases hak : a = k
    · have hd : (decide ((a, v).1 ≠ k)) = false := by simp [hak]
      rw [hd, if_neg (by simp)]
      have hsa : (s == a) = false := by
        rw [hak]
        simp [h]
      rw [lookup_cons_ne v t hsa]
      exact ih
    · have hd : (decide ((a, v).1 ≠ k)) = true := by simp [hak]
      rw [hd, if_pos rfl]
      rcases hsa : (s == a) with _ | _
      · rw [lookup_cons_ne v _ hsa, lookup_cons_ne v t hsa]
        exact ih
      · rw [lookup_cons_eq v _ hsa, lookup_cons_eq v t hsa]

theorem lookup_removeSession_ne (reg : List (String × TransportInfo))
    {sid s : String} (h : s ≠ sid) :
    lookupSession (removeSession reg sid) s = lookupSession reg s :=
  lookup_filter_ne_other h reg

theorem reclaim_preserve_none
    {st : List (String × TransportInfo) × List SweepEvent} {sid : String}
    (h : lookupSession st.1 sid = none) (s : String) :
    lookupSession (reclaimSession st s).1 sid = none := by
  rw [reclaimSession]
  rcases hl : lookupSession st.1 s with _ | ti
  · exact h
  · by_cases hs : s = sid
    · rw [← hs]
      exact lookup_removeSession_self st.1 s
    · rw [show ((removeSession st.1 s, st.2 ++ [SweepEvent.removed s,
          SweepEvent.closeStarted s (removeSession st.1 s)]) :
          List (String × TransportInfo) × List SweepEvent).1
            = removeSession st.1 s from rfl]
      rw [lookup_removeSession_ne st.1 (fun he => hs he.symm)]
      exact h

theorem fold_reclaim_none (sid : String) :
    ∀ (sids : List String)
      (st : List (String × TransportInfo) × List SweepEvent),
      lookupSession st.1 sid = none →
      lookupSession (sids.foldl reclaimSession st).1 sid = none := by
  intro sids
  induction sids with
  | nil => intro st h; exact h
  | cons s ss ih => intro st h; exact ih _ (reclaim_preserve_none h s)

theorem fold_reclaim_mem_none (sid : String) :
    ∀ (sids : List String)
      (st : List (String × TransportInfo) × List SweepEvent),
      sid ∈ sids →
      lookupSession (sids.foldl reclaimSession st).1 sid = none := by
  intro sids
  induction sids with
  | nil => intro st h; exact absurd h (List.not_mem_nil sid)
  | cons s ss ih =>
    intro st h
    rcases List.mem_cons.mp h with rfl | hss
    · have hafter : lookupSession (reclaimSession st sid).1 sid = none := by
        rw [reclaimSession]
        rcases hl : lookupSession st.1 sid with _ | ti
        · exact hl
        · exact lookup_removeSession_self st.1 sid
      exact fold_reclaim_none sid ss _ hafter
    · exact ih _ hss

theorem fold_reclaim_events_mono (e : SweepEvent) :
    ∀ (sids : List String)
      (st : List (String × TransportInfo) × List SweepEvent),
      e ∈ st.2 → e ∈ (sids.foldl reclaimSession st).2 := by
  intro sids
  induction sids with
  | nil => intro st h; exact h
  | cons s ss ih =>
    intro st h
    refine ih _ ?_
    rw [reclaimSession]
    rcases hl : lookupSession st.1 s with _ | ti
    · exact h
    · exact List.mem_append_left _ h

theorem fold_reclaim_event_emitted (sid : String) :
    ∀ (sids : List String)
      (st : List (String × TransportInfo) × List SweepEvent),
      sid ∈ sids → (lookupSession st.1 sid).isSome = true →
      ∃ r, SweepEvent.closeStarted sid r ∈ (sids.foldl reclaimSession st).2 := by
  intro sids
  induction sids with
  | nil => intro st h _; exact absurd h (List.not_mem_nil sid)
  | cons s ss ih =>
    intro st hmem hsome
    by_cases hs : s = sid
    · subst hs
      rcases hl : lookupSession st.1 s with _ | ti
      · rw [hl] at hsome
        simp at hsome
      · refine ⟨removeSession st.1 s, fold_reclaim_events_mono _ ss _ ?_⟩
        rw [reclaimSession, hl]
        exact List.mem_append_right _ (by simp)
    · have hss : sid ∈ ss := by
        rcases List.mem_cons.mp hmem with h | h
        · exact absurd h.symm hs
        · exact h
      refine ih _ hss ?_
      rw [reclaimSession]
      rcases hl : lookupSession st.1 s with _ | ti
      · exact hsome
      · show (lookupSession (removeSession st.1 s) sid).isSome = true
        rw [lookup_removeSession_ne st.1 (fun he => hs he.symm)]
        exact hsome

theorem fold_reclaim_snapshot :
    ∀ (sids : List String)
      (st : List (String × TransportInfo) × List SweepEvent),
      (∀ s r, SweepEvent.closeStarted s r ∈ st.2 → lookupSession r s = none) →
      ∀ s r, SweepEvent.closeStarted s r ∈ (sids.foldl reclaimSession st).2 →
        lookupSession r s = none := by
  intro sids
  induction sids with
  | nil => intro st hinv; exact hinv
  | cons s0 ss ih =>
    intro st hinv
    refine ih _ ?_
    intro s r hmem
    rw [reclaimSession] at hmem
    rcases hl : lookupSession st.1 s0 with _ | ti
    · rw [hl] at hmem
      exact hinv s r hmem
    · rw [hl] at hmem
      have hmem2 : SweepEvent.closeStarted s r ∈
          st.2 ++ [SweepEvent.removed s0,
            SweepEvent.closeStarted s0 (removeSession st.1 s0)] := hmem
      rcases List.mem_append.mp hmem2 with h | h
      · exact hinv s r h
      · rcases List.mem_cons.mp h with h1 | h1
        · exact SweepEvent.noConfusion h1
        · rcases List.mem_cons.mp h1 with h2 | h2
          · injection h2 with h3 h4
            rw [h3, h4]
            exact lookup_removeSession_self st.1 s0
          · exact absurd h2 (List.not_mem_nil _)

/-! ## Claim C4 — idle sweep removes before closing -/

/-- Claim C4: in an idle-reclamation sweep, every session whose idle time
strictly exceeds the session timeout is removed from the registry; its
asynchronous close is initiated (a close-started event exists for it); and
at the instant any close is initiated the registry no longer contains that
session, so a lookup during the pending close fails. -/
theorem idle_sweep_spec :
    ∀ (timeout now : Nat) (reg : List (String × TransportInfo)) (sid : String)
      (ti : TransportInfo),
      lookupSession reg sid = some ti → timeout < now - ti.lastActivity →
      lookupSession (cleanupIdleSessions timeout now reg).1 sid = none
      ∧ (∃ r, SweepEvent.closeStarted sid r
          ∈ (cleanupIdleSessions timeout now reg).2)
      ∧ (∀ s r, SweepEvent.closeStarted s r
          ∈ (cleanupIdleSessions timeout now reg).2 → lookupSession r s = none) := by
  intro timeout now reg sid ti hlook hidle
  have hpair : (sid, ti) ∈ reg := mem_of_lookup hlook
  have hmem : sid ∈ (reg.filter
      (fun p => now - p.2.lastActivity > timeout)).map (fun p => p.1) :=
    List.mem_map.mpr ⟨(sid, ti),
      List.mem_filter.mpr ⟨hpair, by simpa using hidle⟩, rfl⟩
  refine ⟨?_, ?_, ?_⟩
  · exact fold_reclaim_mem_none sid _ (reg, []) hmem
  · refine fold_reclaim_event_emitted sid _ (reg, []) hmem ?_
    show (lookupSession reg sid).isSome = true
    rw [hlook]
    rfl
  · exact fold_reclaim_snapshot _ (reg, [])
      (fun s r h => absurd h (List.not_mem_nil _))

/-- Witness for idle_sweep_spec: a registry with one session last active at
instant 0, swept at instant 10 with timeout 5; after the sweep the lookup
fails. -/
theorem idle_sweep_spec_witness :
    lookupSession (cleanupIdleSessions 5 10 [("s", ⟨0⟩)]).1 "s" = none :=
  (idle_sweep_spec 5 10 [("s", ⟨0⟩)] "s" ⟨0⟩ rfl (by decide)).1

/-! ## Claim C9 — DELETE /mcp handler -/

/-- Claim C9: a DELETE without the session-id header answers 400 and leaves
the registry unchanged; with an unknown session id it answers 404 and
leaves the registry unchanged; with a known session id it closes the
session, removes it (a subsequent lookup fails) and answers 204. -/
theorem delete_mcp_spec :
    ∀ (reg : List (String × TransportInfo)) (sid : String),
      ((handleDeleteMcp none reg).1 = 400 ∧ (handleDeleteMcp none reg).2.1 = reg)
      ∧ (lookupSession reg sid = none →
          (handleDeleteMcp (some sid) reg).1 = 404
          ∧ (handleDeleteMcp (some sid) reg).2.1 = reg)
      ∧ (∀ ti, lookupSession reg sid = some ti →
          (handleDeleteMcp (some sid) reg).1 = 204
          ∧ lookupSession ((handleDeleteMcp (some sid) reg).2.1) sid = none
          ∧ (handleDeleteMcp (some sid) reg).2.2 = [sid]) := by
  intro reg sid
  refine ⟨⟨rfl, rfl⟩, ?_, ?_⟩
  · intro h
    rw [handleDeleteMcp, h]
    exact ⟨rfl, rfl⟩
  · intro ti h
    rw [handleDeleteMcp, h]
    exact ⟨rfl, lookup_removeSession_self reg sid, rfl⟩

/-- Witness for delete_mcp_spec: deleting an unknown id answers 404,
deleting the known id answers 204 and removes it. -/
theorem delete_mcp_spec_witness :
    (handleDeleteMcp (some "x") [("s", ⟨0⟩)]).1 = 404
    ∧ (handleDeleteMcp (some "s") [("s", ⟨0⟩)]).1 = 204
    ∧ lookupSession ((handleDeleteMcp (some "s") [("s", ⟨0⟩)]).2.1) "s" = none :=
  ⟨((delete_mcp_spec [("s", ⟨0⟩)] "x").2.1 (by decide)).1,
   ((delete_mcp_spec [("s", ⟨0⟩)] "s").2.2 ⟨0⟩ (by decide)).1,
   ((delete_mcp_spec [("s", ⟨0⟩)] "s").2.2 ⟨0⟩ (by decide)).2.1⟩

/-! ## Claim C8 — 401 handling retries exactly once with a fresh token -/

/-- Claim C8: a protected request failing with 401 (outside the login
endpoint, with no retry marker yet) clears the token and is retried exactly
once with the retry marker and the freshly obtained token: a success of the
retry is returned with two sends in total, a second failure propagates with
two sends and no further retry; a first success needs one send; a non-401
failure, or a 401 on the login endpoint, is not retried at all. -/
theorem retry_401_spec :
    ∀ (α : Type) (cfg : AuthConfig) (now : Nat)
      (rp : Nat → Except AuthFailure String) (authResp : AuthResponse)
      (cf : RequestConfig) (st : AuthState) (tok : String) (st2 : AuthState),
      cf.hasRetryHeader = false →
      containsSeq cf.url.data "/users/login".data = false →
      getTokenAwait cfg now rp authResp (clearToken st) = (.ok tok, st2) →
      ((on401 cfg now rp authResp cf (some 401) st).1
          = .retry { cf with hasRetryHeader := true, authToken := some tok })
      ∧ (∀ (d : α) (rest : List (HttpOutcome α)),
          sendLoop cfg now rp authResp
            (.failure (some 401) :: .success d :: rest) cf st = (.ok d, 2, st2))
      ∧ (∀ (s2 : Option Nat) (rest : List (HttpOutcome α)),
          (sendLoop cfg now rp authResp
            (.failure (some 401) :: .failure s2 :: rest) cf st).1 = .error s2
          ∧ (sendLoop cfg now rp authResp
            (.failure (some 401) :: .failure s2 :: rest) cf st).2.1 = 2)
      ∧ (∀ (d : α) (rest : List (HttpOutcome α)),
          sendLoop cfg now rp authResp (.success d :: rest) cf st
            = (.ok d, 1, st))
      ∧ (∀ (sf : Option Nat) (rest : List (HttpOutcome α)), sf ≠ some 401 →
          (sendLoop cfg now rp authResp (.failure sf :: rest) cf st).1
            = .error sf
          ∧ (sendLoop cfg now rp authResp (.failure sf :: rest) cf st).2.1 = 1)
      ∧ (∀ (cfL : RequestConfig) (rest : List (HttpOutcome α)),
          containsSeq cfL.url.data "/users/login".data = true →
          (sendLoop cfg now rp authResp (.failure (some 401) :: rest) cfL st).1
            = .error (some 401)
          ∧ (sendLoop cfg now rp authResp
            (.failure (some 401) :: rest) cfL st).2.1 = 1) := by
  intro α cfg now rp authResp cf st tok st2 hret hurl htok
  have hnl : ¬ (containsSeq cf.url.data "/users/login".data = true) := by
    rw [hurl]
    exact Bool.false_ne_true
  have hon : on401 cfg now rp authResp cf (some 401) st
      = (.retry { cf with hasRetryHeader := true, authToken := some tok }, st2) := by
    simp only [on401]
    rw [if_pos ⟨trivial, hnl⟩]
    rw [if_neg (by rw [hret]; exact Bool.false_ne_true)]
    rw [htok]
  have hon2 : ∀ (s2 : Option Nat) (stx : AuthState),
      (on401 cfg now rp authResp
        { cf with hasRetryHeader := true, authToken := some tok } s2 stx).1
        = .reject s2 := by
    intro s2 stx
    rcases s2 with _ | sv
    · rfl
    · simp only [on401]
      by_cases hc : sv = 401 ∧ ¬ (containsSeq
          ({ cf with hasRetryHeader := true, authToken := some tok }
            : RequestConfig).url.data "/users/login".data = true)
      · rw [if_pos hc, if_pos trivial]
      · rw [if_neg hc]
  refine ⟨by rw [hon], ?_, ?_, ?_, ?_, ?_⟩
  · intro d rest
    simp only [sendLoop, hon]
  · intro s2 rest
    rcases hpair : on401 cfg now rp authResp
        { cf with hasRetryHeader := true, authToken := some tok } s2 st2
      with ⟨dec, stx⟩
    have hdec : dec = .reject s2 := by
      rw [← hon2 s2 st2, hpair]
    subst hdec
    constructor <;> simp only [sendLoop, hon, hpair]
  · intro d rest
    simp only [sendLoop]
  · intro sf rest hn
    have hon3 : on401 cfg now rp authResp cf sf st = (.reject sf, st) := by
      rcases sf with _ | sv
      · rfl
      · have hsv : ¬ (sv = 401 ∧ ¬ (containsSeq cf.url.data
            "/users/login".data = true)) := by
          rintro ⟨h1, -⟩
          exact hn (by rw [h1])
        simp only [on401]
        rw [if_neg hsv]
    constructor <;> simp only [sendLoop, hon3]
  · intro cfL rest hL
    have hon4 : on401 cfg now rp authResp cfL (some 401) st
        = (.reject (some 401), st) := by
      simp only [on401]
      rw [if_neg (fun hc => hc.2 hL)]
    constructor <;> simp only [sendLoop, hon4]

/-- Witness for retry_401_spec: a concrete 401 on a protected path produces
a retry request carrying the retry marker and the fresh Bearer token. -/
theorem retry_401_spec_witness :
    (on401 ⟨0, 1000⟩ 0 (fun _ => .error .authenticationFailed)
        (.ok (some "t") none) ⟨"/api/x", false, none⟩ (some 401)
        ⟨⟨[]⟩, 0, none, 0, 0⟩).1
      = .retry ⟨"/api/x", true, some "Bearer t"⟩ :=
  (retry_401_spec Nat ⟨0, 1000⟩ 0 (fun _ => .error .authenticationFailed)
    (.ok (some "t") none) ⟨"/api/x", false, none⟩ ⟨⟨[]⟩, 0, none, 0, 0⟩
    "Bearer t" ⟨⟨[("token", ⟨"Bearer t", 1000⟩)]⟩, 1000, none, 1, 1⟩
    rfl (by decide) rfl).1

/-! ## Similarity bridging lemmas -/

theorem beginsWith_iff :
    ∀ (small big : List Char), beginsWith big small = true ↔ ∃ t, big = small ++ t := by
  intro small
  induction small with
  | nil =>
    intro big
    constructor
    · intro _
      exact ⟨big, rfl⟩
    · intro _
      rcases big with _ | ⟨a, as⟩ <;> rfl
  | cons b bs ih =>
    intro big
    rcases big with _ | ⟨a, as⟩
    · constructor
      · intro h
        exact Bool.noConfusion h
      · rintro ⟨t, ht⟩
        exact absurd ht (by simp)
    · constructor
      · intro h
        have h' : (decide (a = b) && beginsWith as bs) = true := h
        rcases Bool.and_eq_true_iff.mp h' with ⟨h1, h2⟩
        obtain ⟨t, ht⟩ := (ih as).mp h2
        refine ⟨t, ?_⟩
        rw [of_decide_eq_true h1, ht]
        rfl
      · rintro ⟨t, ht⟩
        have ht' : a :: as = b :: (bs ++ t) := ht
        injection ht' with h1 h2
        show (decide (a = b) && beginsWith as bs) = true
        rw [h1]
        simp only [decide_True, Bool.true_and]
        exact (ih as).mpr ⟨t, h2⟩

theorem containsSeq_iff :
    ∀ (big small : List Char),
      containsSeq big small = true ↔ containsAsSubstring big small := by
  intro big
  induction big with
  | nil =>
    intro small
    constructor
    · intro h
      obtain ⟨t, ht⟩ := (beginsWith_iff small []).mp h
      exact ⟨[], t, ht⟩
    · rintro ⟨s, t, ht⟩
      show beginsWith [] small = true
      rcases s with _ | ⟨x, xs⟩
      · exact (beginsWith_iff small []).mpr ⟨t, ht⟩
      · exact absurd ht (by simp)
  | cons a tl ih =>
    intro small
    constructor
    · intro h
      have h' : (beginsWith (a :: tl) small || containsSeq tl small) = true := h
      rcases hb : beginsWith (a :: tl) small with _ | _
      · have hc : containsSeq tl small = true := by
          rw [hb] at h'
          simpa using h'
        obtain ⟨s, t, ht⟩ := (ih small).mp hc
        exact ⟨a :: s, t, by rw [ht]; rfl⟩
      · obtain ⟨t, ht⟩ := (beginsWith_iff small (a :: tl)).mp hb
        exact ⟨[], t, ht⟩
    · rintro ⟨s, t, ht⟩
      show (beginsWith (a :: tl) small || containsSeq tl small) = true
      rcases s with _ | ⟨x, xs⟩
      · rw [(beginsWith_iff small (a :: tl)).mpr ⟨t, ht⟩]
        rfl
      · have ht' : a :: tl = x :: (xs ++ (small ++ t)) := ht
        injection ht' with h1 h2
        rw [(ih small).mpr ⟨xs, t, h2⟩]
        simp

theorem bestFold_mem (x : String × ℚ) (xs : List (String × ℚ)) :
    xs.foldl (fun b y => if b.2 < y.2 then y else b) x = x ∨
      xs.foldl (fun b y => if b.2 < y.2 then y else b) x ∈ xs := by
  induction xs generalizing x with
  | nil => exact Or.inl rfl
  | cons y ys ih =>
    rcases ih (if x.2 < y.2 then y else x) with h | h
    · rw [List.foldl_cons, h]
      by_cases hc : x.2 < y.2
      · rw [if_pos hc]
        exact Or.inr (List.mem_cons_self y ys)
      · rw [if_neg hc]
        exact Or.inl rfl
    · rw [List.foldl_cons]
      exact Or.inr (List.mem_cons_of_mem y h)

theorem bestFold_ge (x : String × ℚ) (xs : List (String × ℚ)) :
    x.2 ≤ (xs.foldl (fun b y => if b.2 < y.2 then y else b) x).2 ∧
      ∀ y ∈ xs, y.2 ≤ (xs.foldl (fun b y => if b.2 < y.2 then y else b) x).2 := by
  induction xs generalizing x with
  | nil => exact ⟨le_refl _, by simp⟩
  | cons y ys ih =>
    have h1 : x.2 ≤ (if x.2 < y.2 then y else x).2 := by
      by_cases hc : x.2 < y.2
      · rw [if_pos hc]
        exact le_of_lt hc
      · rw [if_neg hc]
    have h2 : y.2 ≤ (if x.2 < y.2 then y else x).2 := by
      by_cases hc : x.2 < y.2
      · rw [if_pos hc]
      · rw [if_neg hc]
        exact le_of_not_lt hc
    obtain ⟨ha, hb⟩ := ih (if x.2 < y.2 then y else x)
    refine ⟨?_, ?_⟩
    · rw [List.foldl_cons]
      exact le_trans h1 ha
    · intro z hz
      rw [List.foldl_cons]
      rcases List.mem_cons.mp hz with rfl | hz'
      · exact le_trans h2 ha
      · exact hb z hz'

theorem bestStage_eq (tl a : String) (as : List String) (th : ℚ) :
    bestStage tl (a :: as) th =
      (if th ≤ ((as.map (fun o =>
          (o, calculateSimilarity tl.data (lowerCase o).data))).foldl
            (fun b y => if b.2 < y.2 then y else b)
            (a, calculateSimilarity tl.data (lowerCase a).data)).2
       then some ((as.map (fun o =>
          (o, calculateSimilarity tl.data (lowerCase o).data))).foldl
            (fun b y => if b.2 < y.2 then y else b)
            (a, calculateSimilarity tl.data (lowerCase a).data)).1
       else none) := rfl

theorem bestStage_spec (tl a : String) (as : List String) :
    (∃ r, bestStage tl (a :: as) (3 / 5) = some r ∧ r ∈ a :: as
        ∧ 3 / 5 ≤ calculateSimilarity tl.data (lowerCase r).data
        ∧ ∀ o ∈ a :: as, calculateSimilarity tl.data (lowerCase o).data
            ≤ calculateSimilarity tl.data (lowerCase r).data)
    ∨ (bestStage tl (a :: as) (3 / 5) = none
        ∧ ∀ o ∈ a :: as, calculateSimilarity tl.data (lowerCase o).data
            < 3 / 5) := by
  rw [bestStage_eq]
  set B := (as.map (fun o =>
      (o, calculateSimilarity tl.data (lowerCase o).data))).foldl
        (fun b y => if b.2 < y.2 then y else b)
        (a, calculateSimilarity tl.data (lowerCase a).data) with hB
  have hBmem := bestFold_mem (a, calculateSimilarity tl.data (lowerCase a).data)
    (as.map (fun o => (o, calculateSimilarity tl.data (lowerCase o).data)))
  rw [← hB] at hBmem
  have hBge := bestFold_ge (a, calculateSimilarity tl.data (lowerCase a).data)
    (as.map (fun o => (o, calculateSimilarity tl.data (lowerCase o).data)))
  rw [← hB] at hBge
  have hbm : ∃ o, o ∈ a :: as
      ∧ B = (o, calculateSimilarity tl.data (lowerCase o).data) := by
    rcases hBmem with h1 | h1
    · exact ⟨a, List.mem_cons_self a as, h1⟩
    · obtain ⟨o, ho, hfo⟩ := List.mem_map.mp h1
      exact ⟨o, List.mem_cons_of_mem a ho, hfo.symm⟩
  have hgeall : ∀ o ∈ a :: as,
      calculateSimilarity tl.data (lowerCase o).data ≤ B.2 := by
    intro o ho
    rcases List.mem_cons.mp ho with rfl | ho2
    · exact hBge.1
    · exact hBge.2 (o, calculateSimilarity tl.data (lowerCase o).data)
        (List.mem_map_of_mem _ ho2)
  obtain ⟨o, ho, hfo⟩ := hbm
  have hB1 : B.1 = o := by rw [hfo]
  have hB2 : B.2 = calculateSimilarity tl.data (lowerCase B.1).data := by
    rw [hB1, hfo]
  by_cases hth : (3 : ℚ) / 5 ≤ B.2
  · left
    refine ⟨B.1, by rw [if_pos hth], ?_, ?_, ?_⟩
    · rw [hB1]
      exact ho
    · rw [← hB2]
      exact hth
    · intro o2 ho2
      rw [← hB2]
      exact hgeall o2 ho2
  · right
    refine ⟨by rw [if_neg hth], ?_⟩
    intro o2 ho2
    exact lt_of_le_of_lt (hgeall o2 ho2) (lt_of_not_le hth)

theorem calcSim_eval (s1 s2 : List Char) (d m : Nat)
    (hd : levenshteinDistance s1 s2 = d)
    (hm : Nat.max s1.length s2.length = m) (hm0 : m ≠ 0) :
    calculateSimilarity s1 s2 = 1 - (d : ℚ) / m := by
  rw [show calculateSimilarity s1 s2 =
      (if Nat.max s1.length s2.length = 0 then 1
       else 1 - (levenshteinDistance s1 s2 : ℚ)
         / (Nat.max s1.length s2.length)) from rfl]
  rw [hd, hm, if_neg hm0]

theorem simServisService :
    calculateSimilarity (lowerCase "Servis Requst").data
      (lowerCase "Service Request").data = 4 / 5 := by
  rw [show lowerCase "Servis Requst" = "servis requst" from by decide,
      show lowerCase "Service Request" = "service request" from by decide,
      calcSim_eval _ _ 3 15 (by decide) (by decide) (by decide)]
  norm_num

theorem simServisIncident :
    calculateSimilarity (lowerCase "Servis Requst").data
      (lowerCase "Incident").data = 3 / 13 := by
  rw [show lowerCase "Servis Requst" = "servis requst" from by decide,
      show lowerCase "Incident" = "incident" from by decide,
      calcSim_eval _ _ 10 13 (by decide) (by decide) (by decide)]
  norm_num

theorem simZzzIT :
    calculateSimilarity (lowerCase "Zzzzz").data (lowerCase "IT").data = 0 := by
  rw [show lowerCase "Zzzzz" = "zzzzz" from by decide,
      show lowerCase "IT" = "it" from by decide,
      calcSim_eval _ _ 5 5 (by decide) (by decide) (by decide)]
  norm_num

theorem simZzzHR :
    calculateSimilarity (lowerCase "Zzzzz").data (lowerCase "HR").data = 0 := by
  rw [show lowerCase "Zzzzz" = "zzzzz" from by decide,
      show lowerCase "HR" = "hr" from by decide,
      calcSim_eval _ _ 5 5 (by decide) (by decide) (by decide)]
  norm_num

/-! ## Claim C3 — findSimilarMatch cascade and its concrete examples -/

/-- Claim C3: findSimilarMatch follows the cascade of the specification —
exact case-insensitive match, then substring containment in either
direction, then the candidate of maximal normalized similarity when it
reaches the 0.6 threshold, else no suggestion — and on the three concrete
inputs of the claim it returns IT, Service Request and no suggestion
respectively. -/
theorem findSimilarMatch_spec :
    (∀ (target : String) (options : List String), options ≠ [] →
        SimilarMatchSpec target options (findSimilarMatch target options))
    ∧ findSimilarMatch "IT support group"
        ["IT", "Customer Support", "Cloud Operations"] = some "IT"
    ∧ findSimilarMatch "Servis Requst" ["Service Request", "Incident"]
        = some "Service Request"
    ∧ findSimilarMatch "Zzzzz" ["IT", "HR"] = none := by
  refine ⟨?_, by decide, ?_, ?_⟩
  · intro target options hne
    rcases options with _ | ⟨a, as⟩
    · exact absurd rfl hne
    rw [show findSimilarMatch target (a :: as) =
        (match (a :: as).find? (exactPred (lowerCase target)) with
         | some m => some m
         | none =>
           match (a :: as).find? (containPred (lowerCase target)) with
           | some m => some m
           | none => bestStage (lowerCase target) (a :: as) (3 / 5)) from rfl]
    rcases hex : (a :: as).find? (exactPred (lowerCase target)) with _ | m
    · have hnoex : ∀ o ∈ a :: as, lowerCase o ≠ lowerCase target := by
        intro o ho heq2
        have hf := List.find?_eq_none.mp hex o ho
        exact hf (by simp [exactPred, heq2])
      rcases hcon : (a :: as).find? (containPred (lowerCase target)) with _ | m
      · have hnocon : ∀ o ∈ a :: as,
            ¬ (containsAsSubstring (lowerCase o).data (lowerCase target).data
               ∨ containsAsSubstring (lowerCase target).data
                   (lowerCase o).data) := by
          intro o ho hcc
          have hf := List.find?_eq_none.mp hcon o ho
          apply hf
          show containPred (lowerCase target) o = true
          show (containsSeq (lowerCase o).data (lowerCase target).data
            || containsSeq (lowerCase target).data (lowerCase o).data) = true
          rcases hcc with h | h
          · rw [(containsSeq_iff _ _).mpr h]
            rfl
          · rw [(containsSeq_iff _ _).mpr h]
            simp
        refine ⟨?_, ?_, ?_⟩
        · rintro ⟨o, ho, heq⟩
          exact absurd heq (hnoex o ho)
        · rintro - ⟨o, ho, hcc⟩
          exact absurd hcc (hnocon o ho)
        · rintro - -
          exact bestStage_spec (lowerCase target) a as
      · have hmem := List.mem_of_find?_eq_some hcon
        have hp := List.find?_some hcon
        have hcontain :
            containsAsSubstring (lowerCase m).data (lowerCase target).data
            ∨ containsAsSubstring (lowerCase target).data (lowerCase m).data := by
          have hp' : (containsSeq (lowerCase m).data (lowerCase target).data
              || containsSeq (lowerCase target).data (lowerCase m).data)
                = true := hp
          rcases Bool.or_eq_true_iff.mp hp' with h | h
          · exact Or.inl ((containsSeq_iff _ _).mp h)
          · exact Or.inr ((containsSeq_iff _ _).mp h)
        refine ⟨?_, ?_, ?_⟩
        · rintro ⟨o, ho, heq⟩
          exact absurd heq (hnoex o ho)
        · rintro - -
          exact ⟨m, rfl, hmem, hcontain⟩
        · rintro - hnocon
          exact absurd hcontain (hnocon m hmem)
    · have hmem := List.mem_of_find?_eq_some hex
      have hp := List.find?_some hex
      have heq : lowerCase m = lowerCase target := by
        have hp' : (lowerCase m == lowerCase target) = true := hp
        exact eq_of_beq hp'
      refine ⟨?_, ?_, ?_⟩
      · rintro -
        exact ⟨m, rfl, hmem, heq⟩
      · rintro hno -
        exact absurd heq (hno m hmem)
      · rintro hno -
        exact absurd heq (hno m hmem)
  · rw [show findSimilarMatch "Servis Requst" ["Service Request", "Incident"] =
        (match (["Service Request", "Incident"] : List String).find?
            (exactPred (lowerCase "Servis Requst")) with
         | some m => some m
         | none =>
           match (["Service Request", "Incident"] : List String).find?
              (containPred (lowerCase "Servis Requst")) with
           | some m => some m
           | none => bestStage (lowerCase "Servis Requst")
               ["Service Request", "Incident"] (3 / 5)) from rfl]
    rw [show (["Service Request", "Incident"] : List String).find?
        (exactPred (lowerCase "Servis Requst")) = none from by decide]
    rw [show (["Service Request", "Incident"] : List String).find?
        (containPred (lowerCase "Servis Requst")) = none from by decide]
    show bestStage (lowerCase "Servis Requst") ["Service Request", "Incident"]
      (3 / 5) = some "Service Request"
    rw [bestStage_eq]
    simp only [List.map_cons, List.map_nil, List.foldl_cons, List.foldl_nil]
    rw [simServisService, simServisIncident]
    norm_num
  · rw [show findSimilarMatch "Zzzzz" ["IT", "HR"] =
        (match (["IT", "HR"] : List String).find?
            (exactPred (lowerCase "Zzzzz")) with
         | some m => some m
         | none =>
           match (["IT", "HR"] : List String).find?
              (containPred (lowerCase "Zzzzz")) with
           | some m => some m
           | none => bestStage (lowerCase "Zzzzz") ["IT", "HR"] (3 / 5))
        from rfl]
    rw [show (["IT", "HR"] : List String).find?
        (exactPred (lowerCase "Zzzzz")) = none from by decide]
    rw [show (["IT", "HR"] : List String).find?
        (containPred (lowerCase "Zzzzz")) = none from by decide]
    show bestStage (lowerCase "Zzzzz") ["IT", "HR"] (3 / 5) = none
    rw [bestStage_eq]
    simp only [List.map_cons, List.map_nil, List.foldl_cons, List.foldl_nil]
    rw [simZzzIT, simZzzHR]
    norm_num

/-- Witness for findSimilarMatch_spec at a concrete non-empty option
list. -/
theorem findSimilarMatch_spec_witness :
    SimilarMatchSpec "a" ["b"] (findSimilarMatch "a" ["b"]) :=
  findSimilarMatch_spec.1 "a" ["b"] (by decide)

end EfecteMcp
